import Mathlib

/-!
Verification of the genetic-programming search engine in
`genetic/strategy_ga.py` and `genetic/metrics.py`.

The numeric pipeline is embedded over exact rationals: Python floats are
idealised as `ℚ` (the literals `0.30`, `0.3`, `1000`, `1e9`, `0.55`, `0.80`,
`1e-6`, `-0.999` are taken at their decimal values).  A pandas operation that
produces no number — `iloc[-1]` on an empty series (an `IndexError`) or a
`0/0` division (a `NaN`) — is modelled with `Option`: `none` stands for the
absent value.  All entries of a drawdown series that exist are exact
rationals, so `Option ℚ` is a faithful carrier for the metrics layer as long
as the inputs are finite, which the fitness claims assume.
-/

namespace StrategyGA

/-- Model of `(1 + returns).cumprod()` — running product of a list, seeded at 1.
`cumprodAux acc l` is the list of partial products of `l` scaled by `acc`. -/
def cumprodAux (acc : ℚ) : List ℚ → List ℚ
  | [] => []
  | x :: xs => (acc * x) :: cumprodAux (acc * x) xs

/-- pandas `Series.cumprod()` on a list of rationals. -/
def cumprod (l : List ℚ) : List ℚ := cumprodAux 1 l

/-- pandas `Series.cummax()`: running maximum (the first entry seeds it). -/
def cummaxAux (m : ℚ) : List ℚ → List ℚ
  | [] => []
  | x :: xs => max m x :: cummaxAux (max m x) xs

/-- pandas `Series.cummax()` on a list of rationals. -/
def cummax : List ℚ → List ℚ
  | [] => []
  | x :: xs => x :: cummaxAux x xs

/-- pandas `Series.min()`: the minimum of the entries that are numbers
(`skipna=True`, the default); `none` (= NaN) when no entry is a number. -/
def minSkipna : List (Option ℚ) → Option ℚ
  | [] => none
  | none :: rest => minSkipna rest
  | some q :: rest =>
      match minSkipna rest with
      | none => some q
      | some m => some (min q m)

/-- Model of `metrics.equity_curve(returns)`: `(1 + returns).cumprod()`. -/
def equity_curve (returns : List ℚ) : List ℚ :=
  cumprod (returns.map (fun r => 1 + r))

/-- One entry of `dd = (ec / roll_max) - 1` in `metrics.max_drawdown`.
When the running maximum is 0 the equity entry is also 0 (a running product
that has hit 0 stays 0, and a running maximum is 0 only by attaining it), so
pandas evaluates `0/0`, which is NaN: modelled as `none`. -/
def ddEntry (e m : ℚ) : Option ℚ :=
  if m = 0 then none else some (e / m - 1)

/-- Model of `metrics.max_drawdown(returns)`: minimum of `(ec / ec.cummax()) - 1`,
`none` when that minimum is NaN. -/
def max_drawdown (returns : List ℚ) : Option ℚ :=
  minSkipna (List.zipWith ddEntry (equity_curve returns) (cummax (equity_curve returns)))

/-- Model of `returns * signal` as used by `fitness_function` (index-aligned series of
equal length are element-wise products). -/
def stratReturns (signal returns : List ℚ) : List ℚ :=
  List.zipWith (fun r s => r * s) returns signal

/-- Model of `equity.iloc[-1] - 1` of the strategy's equity curve: the total
compounded return; `none` models the `IndexError` on an empty series. -/
def totalRet (signal returns : List ℚ) : Option ℚ :=
  (equity_curve (stratReturns signal returns)).getLast?.map (fun e => e - 1)

/-- Model of `fitness_function(signal, returns)` from `strategy_ga.py`:
equity = `(1 + returns*signal).cumprod()`, `total_ret = equity.iloc[-1] - 1`,
`mdd = metrics.max_drawdown(returns*signal)`; then the three-tier policy:
`-1e9` when `total_ret < 0`, `-1000 * total_ret` when `total_ret < 0.30`,
else `total_ret - 0.3 * mdd`.  `none` models a run that produced no number
(empty input, or a NaN drawdown reaching the score). -/
def fitness_function (signal returns : List ℚ) : Option ℚ :=
  match (equity_curve (stratReturns signal returns)).getLast? with
  | none => none
  | some e =>
      let total_ret := e - 1
      if total_ret < 0 then some (-(10 ^ 9 : ℚ))
      else if total_ret < 3 / 10 then some (-1000 * total_ret)
      else (max_drawdown (stratReturns signal returns)).map
        (fun mdd => total_ret - 3 / 10 * mdd)

/-- C3: for every non-empty signal/target pair whose total compounded return
is strictly negative, `fitness_function` returns exactly the failure floor
`-1e9`, independently of how large the loss is and of the drawdown. -/
theorem C3_negative_return_floor (signal returns : List ℚ) (t : ℚ)
    (ht : totalRet signal returns = some t) (hneg : t < 0) :
    fitness_function signal returns = some (-(10 ^ 9 : ℚ)) := by
  unfold totalRet at ht
  rcases Option.map_eq_some'.mp ht with ⟨e, hlast, he⟩
  unfold fitness_function
  rw [hlast]
  simp only
  rw [if_pos (by rw [he]; exact hneg)]

/-- Witness for C3 at the concrete pair signal = [1], returns = [-1/2]. -/
theorem C3_negative_return_floor_witness :
    fitness_function [1] [-(1 / 2)] = some (-(10 ^ 9 : ℚ)) :=
  C3_negative_return_floor [1] [-(1 / 2)] (-(1 / 2))
    (by norm_num [totalRet, equity_curve, stratReturns, cumprod, cumprodAux])
    (by norm_num)

/-- C1 fails on the code: on the `[0, 0.30)` branch the fitness is
`-1000 * total_ret`, which is strictly DECREASING in the total return.  At
signal `[1,1]`: returns `[1/20, 1/20]` give total return `41/400 = 0.1025`
and fitness `-102.5`, while returns `[1/10, 1/10]` give the larger total
return `21/100 = 0.21` and the strictly smaller fitness `-210`. -/
theorem C1_subthreshold_fitness_decreasing :
    totalRet [1, 1] [1 / 20, 1 / 20] = some (41 / 400) ∧
    totalRet [1, 1] [1 / 10, 1 / 10] = some (21 / 100) ∧
    (0 : ℚ) ≤ 41 / 400 ∧ (41 / 400 : ℚ) < 21 / 100 ∧ (21 / 100 : ℚ) < 3 / 10 ∧
    fitness_function [1, 1] [1 / 20, 1 / 20] = some (-(205 / 2)) ∧
    fitness_function [1, 1] [1 / 10, 1 / 10] = some (-210) ∧
    (-210 : ℚ) < -(205 / 2) := by
  refine ⟨?_, ?_, by norm_num, by norm_num, by norm_num, ?_, ?_, by norm_num⟩ <;>
    norm_num [totalRet, fitness_function, equity_curve, stratReturns, cumprod,
      cumprodAux, cummax, cummaxAux, minSkipna, ddEntry, max_drawdown]

/-- C2 fails on the code: `metrics.max_drawdown` returns a non-positive
number, so `score = total_ret - 0.3 * mdd` REWARDS drawdown.  At equal total
return `3/10`, the flat pair (returns `[3/10, 0]`, drawdown 0) scores `3/10`,
while the pair with an 18.75% peak-to-trough decline (returns
`[3/5, -3/16]`, drawdown `-3/16`) scores the strictly larger `57/160`. -/
theorem C2_deeper_drawdown_scores_higher :
    totalRet [1, 1] [3 / 10, 0] = some (3 / 10) ∧
    totalRet [1, 1] [3 / 5, -(3 / 16)] = some (3 / 10) ∧
    max_drawdown (stratReturns [1, 1] [3 / 10, 0]) = some 0 ∧
    max_drawdown (stratReturns [1, 1] [3 / 5, -(3 / 16)]) = some (-(3 / 16)) ∧
    (-(3 / 16) : ℚ) < 0 ∧
    fitness_function [1, 1] [3 / 10, 0] = some (3 / 10) ∧
    fitness_function [1, 1] [3 / 5, -(3 / 16)] = some (57 / 160) ∧
    (3 / 10 : ℚ) < 57 / 160 := by
  refine ⟨?_, ?_, ?_, ?_, by norm_num, ?_, ?_, by norm_num⟩ <;>
    norm_num [totalRet, fitness_function, equity_curve, stratReturns, cumprod,
      cumprodAux, cummax, cummaxAux, minSkipna, ddEntry, max_drawdown]

/-- A skip-NaN minimum whose first entry is the number `a` is a number `≤ a`. -/
theorem minSkipna_cons_some (a : ℚ) (l : List (Option ℚ)) :
    ∃ q, minSkipna (some a :: l) = some q ∧ q ≤ a := by
  cases h : minSkipna l with
  | none => exact ⟨a, by simp [minSkipna, h], le_refl a⟩
  | some m => exact ⟨min a m, by simp [minSkipna, h], min_le_left a m⟩

/-- On a non-empty returns list whose first entry is not `-1`, the first
drawdown entry is exactly 0, so the skip-NaN minimum is a number `≤ 0`. -/
theorem max_drawdown_head_nonpos (r : ℚ) (tl : List ℚ) (hr : r ≠ -1) :
    ∃ q, max_drawdown (r :: tl) = some q ∧ q ≤ 0 := by
  have h1 : (1 : ℚ) + r ≠ 0 := fun h => hr (by linarith)
  have h1' : (1 : ℚ) * (1 + r) ≠ 0 := by rw [one_mul]; exact h1
  have hd : ddEntry (1 * (1 + r)) (1 * (1 + r)) = some 0 := by
    rw [ddEntry, if_neg h1', div_self h1', sub_self]
  unfold max_drawdown equity_curve cumprod
  simp only [List.map, cumprodAux, cummax, List.zipWith]
  rw [hd]
  exact minSkipna_cons_some 0 _

/-- The last entry of `cumprodAux acc l` is `acc` times the product of `l`. -/
theorem cumprodAux_getLast? (l : List ℚ) : ∀ acc : ℚ, l ≠ [] →
    (cumprodAux acc l).getLast? = some (acc * l.prod) := by
  induction l with
  | nil => intro acc h; exact absurd rfl h
  | cons x xs ih =>
    intro acc _
    cases xs with
    | nil => simp [cumprodAux]
    | cons y ys =>
      have h2 : cumprodAux acc (x :: y :: ys) =
          (acc * x) :: cumprodAux (acc * x) (y :: ys) := rfl
      obtain ⟨z, zs, hz⟩ : ∃ z zs, cumprodAux (acc * x) (y :: ys) = z :: zs :=
        ⟨_, _, rfl⟩
      rw [h2, hz, List.getLast?_cons_cons, ← hz, ih (acc * x) (by simp)]
      simp [List.prod_cons, mul_assoc]

/-- C10 fails as stated at the returns list `[-1]`: the equity curve hits 0
immediately, every drawdown entry is the NaN `0/0`, and pandas' skip-NaN
minimum of an all-NaN series is NaN — not a non-positive value. -/
theorem C10_counterexample :
    max_drawdown [-1] = none ∧ ∀ q : ℚ, q ≤ 0 → max_drawdown [-1] ≠ some q := by
  have h : max_drawdown [-1] = none := by
    norm_num [max_drawdown, equity_curve, cumprod, cumprodAux, cummax,
      cummaxAux, minSkipna, ddEntry]
  exact ⟨h, fun q _ hq => by rw [h] at hq; exact Option.noConfusion hq⟩

/-- C10 amended: for every non-empty returns series whose FIRST entry is not
`-1`, `max_drawdown` is a number `≤ 0`; and in the threshold-cleared fitness
branch (total return `≥ 0.30`, which forces the strategy equity curve to
stay nonzero) the term `- 0.3 * mdd` is a non-negative addition, so the
fitness is `≥` the total return. -/
theorem C10_mdd_nonpos_and_score_bonus (rs signal returns : List ℚ) (t : ℚ)
    (hne : rs ≠ []) (hh : rs.head? ≠ some (-1))
    (ht : totalRet signal returns = some t) (h3 : 3 / 10 ≤ t) :
    (∃ q, max_drawdown rs = some q ∧ q ≤ 0) ∧
    (∃ f, fitness_function signal returns = some f ∧ t ≤ f) := by
  constructor
  · cases rs with
    | nil => exact absurd rfl hne
    | cons r tl =>
      exact max_drawdown_head_nonpos r tl fun h => hh (by rw [h]; rfl)
  · rcases Option.map_eq_some'.mp ht with ⟨e, hlast, he⟩
    have he0 : e ≠ 0 := by intro h0; rw [h0] at he; linarith
    cases hsrs : stratReturns signal returns with
    | nil =>
      rw [hsrs] at hlast
      simp [equity_curve, cumprod, cumprodAux] at hlast
    | cons y ys =>
      have hlast2 := hlast
      rw [hsrs] at hlast2
      unfold equity_curve cumprod at hlast2
      rw [cumprodAux_getLast? _ 1 (by simp)] at hlast2
      have hprod : (1 : ℚ) * (List.map (fun r => 1 + r) (y :: ys)).prod = e :=
        Option.some.inj hlast2
      have hpne : (List.map (fun r => 1 + r) (y :: ys)).prod ≠ 0 := by
        rw [one_mul] at hprod; rw [hprod]; exact he0
      have hy : (1 : ℚ) + y ≠ 0 := by
        intro h0
        apply hpne
        rw [List.prod_eq_zero_iff, List.map_cons, ← h0]
        exact List.mem_cons_self _ _
      have hy1 : y ≠ -1 := fun h => hy (by rw [h]; ring)
      rcases max_drawdown_head_nonpos y ys hy1 with ⟨q, hq, hq0⟩
      have hql : (3 : ℚ) / 10 * q ≤ 0 := by nlinarith
      refine ⟨t - 3 / 10 * q, ?_, by linarith⟩
      unfold fitness_function
      rw [hlast]
      simp only
      rw [he, if_neg (not_lt.mpr (by linarith)), if_neg (not_lt.mpr h3),
        hsrs, hq]
      rfl

/-- Witness for C10 amended at returns `[1/10, -1/2]` (for the drawdown
part) and the pair signal `[1,1]`, returns `[3/10, 1/10]` with total return
`43/100` (for the fitness part). -/
theorem C10_witness :
    (∃ q, max_drawdown [1 / 10, -(1 / 2)] = some q ∧ q ≤ 0) ∧
    (∃ f, fitness_function [1, 1] [3 / 10, 1 / 10] = some f ∧
      (43 / 100 : ℚ) ≤ f) :=
  C10_mdd_nonpos_and_score_bonus [1 / 10, -(1 / 2)] [1, 1] [3 / 10, 1 / 10]
    (43 / 100) (by simp) (by norm_num [List.head?])
    (by norm_num [totalRet, equity_curve, stratReturns, cumprod, cumprodAux])
    (by norm_num)

/-!
The primitive registry (`make_primitives`) operates on Python floats, whose
inputs may be non-finite.  `EFloat` carries a finite exact rational, the two
infinities, and NaN; the IEEE rules for infinities and NaN are modelled
exactly, while finite-range overflow (a float artefact with no rational
counterpart) is outside the model.  The four transcendental primitives
(`np.tanh`, `math.sqrt`, `math.log1p`, `math.exp`) are irrational on finite
arguments, so their finite case is an abstract parameter `ℚ → ℚ`; every
theorem below holds for all such parameters, hence for the real functions. -/

/-- A Python float: a finite rational, `+inf`, `-inf`, or NaN. -/
inductive EFloat : Type where
  | fin : ℚ → EFloat
  | pinf : EFloat
  | ninf : EFloat
  | nan : EFloat
deriving DecidableEq, Repr

namespace EFloat

/-- Python `<` on floats: any comparison with NaN is `False`. -/
def pyLt : EFloat → EFloat → Bool
  | fin a, fin b => decide (a < b)
  | fin _, pinf => true
  | ninf, fin _ => true
  | ninf, pinf => true
  | _, _ => false

/-- Python `<=` on floats: any comparison with NaN is `False`. -/
def pyLe : EFloat → EFloat → Bool
  | fin a, fin b => decide (a ≤ b)
  | fin _, pinf => true
  | pinf, pinf => true
  | ninf, fin _ => true
  | ninf, ninf => true
  | ninf, pinf => true
  | _, _ => false

/-- Python unary `-` on floats. -/
def neg : EFloat → EFloat
  | fin q => fin (-q)
  | pinf => ninf
  | ninf => pinf
  | nan => nan

/-- Model of `lambda a, b: a + b` (the `add` primitive): IEEE addition;
`(+inf) + (-inf)` is NaN. -/
def add : EFloat → EFloat → EFloat
  | nan, _ => nan
  | _, nan => nan
  | fin a, fin b => fin (a + b)
  | fin _, pinf => pinf
  | pinf, fin _ => pinf
  | pinf, pinf => pinf
  | fin _, ninf => ninf
  | ninf, fin _ => ninf
  | ninf, ninf => ninf
  | pinf, ninf => nan
  | ninf, pinf => nan

/-- Model of `lambda a, b: a - b` (the `sub` primitive): IEEE subtraction. -/
def sub : EFloat → EFloat → EFloat
  | nan, _ => nan
  | _, nan => nan
  | fin a, fin b => fin (a - b)
  | fin _, pinf => ninf
  | fin _, ninf => pinf
  | pinf, fin _ => pinf
  | ninf, fin _ => ninf
  | pinf, pinf => nan
  | pinf, ninf => pinf
  | ninf, pinf => ninf
  | ninf, ninf => nan

/-- Model of `lambda a, b: a * b` (the `mul` primitive): IEEE multiplication;
`0 * inf` is NaN. -/
def mul : EFloat → EFloat → EFloat
  | nan, _ => nan
  | _, nan => nan
  | fin a, fin b => fin (a * b)
  | fin a, pinf => if a = 0 then nan else if 0 < a then pinf else ninf
  | pinf, fin a => if a = 0 then nan else if 0 < a then pinf else ninf
  | fin a, ninf => if a = 0 then nan else if 0 < a then ninf else pinf
  | ninf, fin a => if a = 0 then nan else if 0 < a then ninf else pinf
  | pinf, pinf => pinf
  | pinf, ninf => ninf
  | ninf, pinf => ninf
  | ninf, ninf => pinf

/-- CPython scalar `/`.  On `fin _ / fin 0` CPython raises
`ZeroDivisionError`; every embedded call site either guards the denominator
(`div_safe`, `protected_div`) or catches the exception (`sigmoid_safe`), so
the `nan` returned in that arm never models the value of a source
expression. -/
def pyDiv : EFloat → EFloat → EFloat
  | nan, _ => nan
  | _, nan => nan
  | fin a, fin b => if b = 0 then nan else fin (a / b)
  | fin _, pinf => fin 0
  | fin _, ninf => fin 0
  | pinf, fin b => if b = 0 then nan else if 0 < b then pinf else ninf
  | ninf, fin b => if b = 0 then nan else if 0 < b then ninf else pinf
  | pinf, pinf => nan
  | pinf, ninf => nan
  | ninf, pinf => nan
  | ninf, ninf => nan

/-- numpy element-wise division (used on the ndarray in
`compile_individual`): never raises; `x/0` is `±inf` for `x ≠ 0` and NaN
for `0/0`. -/
def npDiv : EFloat → EFloat → EFloat
  | nan, _ => nan
  | _, nan => nan
  | fin a, fin b =>
      if b = 0 then (if a = 0 then nan else if 0 < a then pinf else ninf)
      else fin (a / b)
  | fin _, pinf => fin 0
  | fin _, ninf => fin 0
  | pinf, fin b => if 0 ≤ b then pinf else ninf
  | ninf, fin b => if 0 ≤ b then ninf else pinf
  | pinf, pinf => nan
  | pinf, ninf => nan
  | ninf, pinf => nan
  | ninf, ninf => nan

/-- Model of `np.abs` (the `abs` primitive). -/
def abs : EFloat → EFloat
  | fin q => fin |q|
  | pinf => pinf
  | ninf => pinf
  | nan => nan

/-- Whether the float is a finite number (not `±inf`, not NaN). -/
def isFinite : EFloat → Bool
  | fin _ => true
  | _ => false

end EFloat

/-- Model of `np.sign` (the `sign` primitive); `np.sign(nan)` is NaN. -/
def np_sign : EFloat → EFloat
  | .fin q => .fin (if q < 0 then -1 else if q = 0 then 0 else 1)
  | .pinf => .fin 1
  | .ninf => .fin (-1)
  | .nan => .nan

/-- Model of `np.tanh` (the `tanh` primitive), finite case abstracted as `th`. -/
def np_tanh (th : ℚ → ℚ) : EFloat → EFloat
  | .fin q => .fin (th q)
  | .pinf => .fin 1
  | .ninf => .fin (-1)
  | .nan => .nan

/-- Exponential, finite case abstracted as `ex`.  Both call sites
(`sigmoid_safe` via `math.exp`, `compile_individual` via `np.exp`) clip the
argument into `[-10, 10]` first, so finite-range overflow cannot occur. -/
def expE (ex : ℚ → ℚ) : EFloat → EFloat
  | .fin q => .fin (ex q)
  | .pinf => .pinf
  | .ninf => .fin 0
  | .nan => .nan

/-- Model of `lambda a, b: a / b if b != 0 else 0.0` (the `div_safe` primitive).
Python's `b != 0` is `True` for NaN and the infinities, so only `fin 0`
takes the fallback. -/
def div_safe (a b : EFloat) : EFloat :=
  if b = EFloat.fin 0 then EFloat.fin 0 else EFloat.pyDiv a b

/-- Model of `protected_div` (the `div_prot` primitive):
`x / y if abs(y) > 1e-6 else 0.0`.  `abs(nan) > 1e-6` is `False`, so NaN
denominators take the fallback; the guard keeps the denominator nonzero, so
the `try/except` never fires. -/
def protected_div (x y : EFloat) : EFloat :=
  if EFloat.pyLt (EFloat.fin (1 / 1000000)) (EFloat.abs y) then EFloat.pyDiv x y
  else EFloat.fin 0

/-- Model of `protected_sqrt` (the `sqrt_safe` primitive): `math.sqrt(abs(x))`,
finite case abstracted as `sq`.  `abs` makes the argument non-negative, so
`math.sqrt` never raises; `sqrt(abs(±inf)) = +inf` and `sqrt(nan) = nan`. -/
def protected_sqrt (sq : ℚ → ℚ) : EFloat → EFloat
  | .fin q => .fin (sq |q|)
  | .pinf => .pinf
  | .ninf => .pinf
  | .nan => .nan

/-- CPython builtin `min(a, b)`: returns `b` only when `b < a`, so
`min(10.0, nan)` is `10.0`. -/
def pymin (a b : EFloat) : EFloat := if EFloat.pyLt b a then b else a

/-- CPython builtin `max(a, b)`: returns `b` only when `a < b`. -/
def pymax (a b : EFloat) : EFloat := if EFloat.pyLt a b then b else a

/-- Model of `clip10`: `max(-10.0, min(10.0, x))`.  Total even on NaN: `min(10.0,
nan) = 10.0` because NaN comparisons are `False`. -/
def clip10 (x : EFloat) : EFloat :=
  pymax (EFloat.fin (-10)) (pymin (EFloat.fin 10) x)

/-- Model of `sigmoid_safe` (the `sigmoid` primitive):
`1.0 / (1.0 + math.exp(-clip10(x)))`; the `except` branch (returning `0.5`)
is reachable only through `ZeroDivisionError`, i.e. a denominator of
exactly 0. -/
def sigmoid_safe (ex : ℚ → ℚ) (x : EFloat) : EFloat :=
  let d := EFloat.add (EFloat.fin 1) (expE ex (EFloat.neg (clip10 x)))
  if d = EFloat.fin 0 then EFloat.fin (1 / 2) else EFloat.pyDiv (EFloat.fin 1) d

/-- Model of `protected_log` (the `log1p_safe` primitive): `0.0` when
`x <= -0.999`, else `math.log1p(x)` (finite case abstracted as `lg`; the
guard keeps the argument `> -0.999 > -1`, inside `log1p`'s domain).
`nan <= -0.999` is `False`, so `log1p(nan) = nan` flows through. -/
def protected_log (lg : ℚ → ℚ) : EFloat → EFloat
  | .fin q => if q ≤ -(999 / 1000) then .fin 0 else .fin (lg q)
  | .pinf => .pinf
  | .ninf => .fin 0
  | .nan => .nan

/-- Fact: `clip10` returns a finite value in `[-10, 10]` on EVERY input,
including `±inf` and NaN. -/
theorem clip10_bounds (x : EFloat) :
    ∃ c : ℚ, clip10 x = EFloat.fin c ∧ -10 ≤ c ∧ c ≤ 10 := by
  cases x with
  | fin q =>
    by_cases h : q < 10
    · by_cases h2 : (-10 : ℚ) < q
      · exact ⟨q, by simp [clip10, pymin, pymax, EFloat.pyLt, h, h2], le_of_lt h2,
          le_of_lt h⟩
      · exact ⟨-10, by simp [clip10, pymin, pymax, EFloat.pyLt, h, h2], le_refl _,
          by norm_num⟩
    · exact ⟨10, by simp [clip10, pymin, pymax, EFloat.pyLt, h], by norm_num,
        le_refl _⟩
  | pinf => exact ⟨10, by norm_num [clip10, pymin, pymax, EFloat.pyLt], by norm_num,
      le_refl _⟩
  | ninf => exact ⟨-10, by norm_num [clip10, pymin, pymax, EFloat.pyLt], le_refl _,
      by norm_num⟩
  | nan => exact ⟨10, by norm_num [clip10, pymin, pymax, EFloat.pyLt], by norm_num,
      le_refl _⟩

/-- Fact: `sigmoid_safe` is finite on EVERY input: the argument of `exp` is
clipped to a finite value first. -/
theorem sigmoid_safe_finite (ex : ℚ → ℚ) (x : EFloat) :
    ∃ v : ℚ, sigmoid_safe ex x = EFloat.fin v := by
  obtain ⟨c, hc, -, -⟩ := clip10_bounds x
  unfold sigmoid_safe
  rw [hc]
  simp only [EFloat.neg, expE, EFloat.add]
  by_cases hd : (1 : ℚ) + ex (-c) = 0
  · rw [if_pos (by rw [hd])]
    exact ⟨1 / 2, rfl⟩
  · rw [if_neg (fun h => hd (by injection h))]
    simp only [EFloat.pyDiv]
    rw [if_neg hd]
    exact ⟨1 / (1 + ex (-c)), rfl⟩

/-- C4 fails as stated on non-finite inputs: the raw `add` primitive
(`lambda a, b: a + b`) maps `(+inf, -inf)` to NaN. -/
theorem C4_add_infinities_nan :
    EFloat.add EFloat.pinf EFloat.ninf = EFloat.nan ∧
    (EFloat.add EFloat.pinf EFloat.ninf).isFinite = false :=
  ⟨rfl, rfl⟩

/-- C4 amended: on finite inputs (overflow ignored — the model is exact),
every registered primitive returns a finite value; `clip10` moreover is
finite and inside `[-10, 10]` on every input including `±inf`/NaN, and
`sigmoid` is finite on every input.  Totality on arbitrary non-finite
inputs fails for the unprotected primitives (see the counterexample). -/
theorem C4_primitives_total_on_finite (a b : ℚ) (x : EFloat)
    (th sq lg ex : ℚ → ℚ) :
    (EFloat.add (.fin a) (.fin b)).isFinite = true ∧
    (EFloat.sub (.fin a) (.fin b)).isFinite = true ∧
    (EFloat.mul (.fin a) (.fin b)).isFinite = true ∧
    (div_safe (.fin a) (.fin b)).isFinite = true ∧
    (protected_div (.fin a) (.fin b)).isFinite = true ∧
    (np_tanh th (.fin a)).isFinite = true ∧
    (EFloat.abs (.fin a)).isFinite = true ∧
    (np_sign (.fin a)).isFinite = true ∧
    (protected_sqrt sq (.fin a)).isFinite = true ∧
    (clip10 (.fin a)).isFinite = true ∧
    (sigmoid_safe ex (.fin a)).isFinite = true ∧
    (protected_log lg (.fin a)).isFinite = true ∧
    (∃ c : ℚ, clip10 x = .fin c ∧ -10 ≤ c ∧ c ≤ 10) ∧
    (sigmoid_safe ex x).isFinite = true := by
  refine ⟨rfl, rfl, rfl, ?_, ?_, rfl, rfl, rfl, rfl, ?_, ?_, ?_,
    clip10_bounds x, ?_⟩
  · unfold div_safe
    by_cases hb : EFloat.fin b = EFloat.fin 0
    · rw [if_pos hb]; rfl
    · rw [if_neg hb]
      simp only [EFloat.pyDiv]
      rw [if_neg (fun h => hb (by rw [h]))]
      rfl
  · unfold protected_div
    by_cases hg : EFloat.pyLt (EFloat.fin (1 / 1000000)) (EFloat.abs (EFloat.fin b)) = true
    · rw [if_pos hg]
      simp only [EFloat.abs, EFloat.pyLt, decide_eq_true_eq] at hg
      have hb : b ≠ 0 := by
        intro h0; rw [h0] at hg; norm_num at hg
      simp only [EFloat.pyDiv]
      rw [if_neg hb]
      rfl
    · rw [if_neg hg]; rfl
  · obtain ⟨c, hc, -, -⟩ := clip10_bounds (EFloat.fin a)
    rw [hc]; rfl
  · obtain ⟨v, hv⟩ := sigmoid_safe_finite ex (EFloat.fin a)
    rw [hv]; rfl
  · simp only [protected_log]
    split <;> rfl
  · obtain ⟨v, hv⟩ := sigmoid_safe_finite ex x
    rw [hv]; rfl

/-!
The signal compiler (`compile_individual`): a GP individual is an
expression tree over the primitive registry, feature terminals and frozen
ephemeral constants; the compiled closure evaluates the tree per row,
squashes through `1/(1 + np.exp(-np.clip(raw, -10, 10)))` and thresholds at
`0.55`. -/

/-- The four transcendental primitives' finite cases, bundled. -/
structure Transc where
  tanhQ : ℚ → ℚ
  sqrtQ : ℚ → ℚ
  log1pQ : ℚ → ℚ
  expQ : ℚ → ℚ

/-- A GP individual: an expression tree over the registered primitives,
feature terminals (`var i` = the i-th feature column) and ephemeral
constants frozen into the tree at construction time. -/
inductive Expr : Type where
  | var : Nat → Expr
  | const : ℚ → Expr
  | add : Expr → Expr → Expr
  | sub : Expr → Expr → Expr
  | mul : Expr → Expr → Expr
  | div_safe : Expr → Expr → Expr
  | div_prot : Expr → Expr → Expr
  | tanh : Expr → Expr
  | abs : Expr → Expr
  | sign : Expr → Expr
  | sqrt_safe : Expr → Expr
  | clip10 : Expr → Expr
  | sigmoid : Expr → Expr
  | log1p_safe : Expr → Expr
deriving DecidableEq, Repr

/-- Evaluation of a compiled tree on one row (`func(*row)`): each node
applies the registered primitive. -/
def evalExpr (T : Transc) (row : Nat → EFloat) : Expr → EFloat
  | .var i => row i
  | .const q => .fin q
  | .add e1 e2 => EFloat.add (evalExpr T row e1) (evalExpr T row e2)
  | .sub e1 e2 => EFloat.sub (evalExpr T row e1) (evalExpr T row e2)
  | .mul e1 e2 => EFloat.mul (evalExpr T row e1) (evalExpr T row e2)
  | .div_safe e1 e2 => div_safe (evalExpr T row e1) (evalExpr T row e2)
  | .div_prot e1 e2 => protected_div (evalExpr T row e1) (evalExpr T row e2)
  | .tanh e => np_tanh T.tanhQ (evalExpr T row e)
  | .abs e => EFloat.abs (evalExpr T row e)
  | .sign e => np_sign (evalExpr T row e)
  | .sqrt_safe e => protected_sqrt T.sqrtQ (evalExpr T row e)
  | .clip10 e => clip10 (evalExpr T row e)
  | .sigmoid e => sigmoid_safe T.expQ (evalExpr T row e)
  | .log1p_safe e => protected_log T.log1pQ (evalExpr T row e)

/-- Model of `np.clip(raw, -10, 10)`: unlike the Python-builtin `clip10`, numpy's
clip propagates NaN. -/
def npClip10 : EFloat → EFloat
  | .fin q => .fin (max (-10) (min 10 q))
  | .pinf => .fin 10
  | .ninf => .fin (-10)
  | .nan => .nan

/-- Model of `1.0 / (1.0 + np.exp(-np.clip(raw, -10, 10)))`: numpy element-wise
arithmetic (never raises; NaN propagates). -/
def npSigmoid (ex : ℚ → ℚ) (x : EFloat) : EFloat :=
  EFloat.npDiv (.fin 1) (EFloat.add (.fin 1) (expE ex (EFloat.neg (npClip10 x))))

/-- Python `>` on floats: `a > b` iff `b < a`; `False` whenever NaN is
involved, so a NaN probability yields signal 0. -/
def pyGt (a b : EFloat) : Bool := EFloat.pyLt b a

/-- Model of `compile_individual(ind, pset, feat_cols)`'s compiled signal: per row,
evaluate the tree, squash through the numpy sigmoid, go long (1.0) when the
probability exceeds 0.55, else 0.0. -/
def compile_individual (T : Transc) (ind : Expr) (rows : List (Nat → EFloat)) :
    List ℚ :=
  rows.map fun row =>
    if pyGt (npSigmoid T.expQ (evalExpr T row ind)) (.fin (11 / 20)) then 1 else 0

/-- C5: the compiled signal has exactly one entry per input row, every
entry is exactly 0 or 1 (no NaN), and the output is a pure function of
(individual, table): two calls with the identical pair coincide — the
definition takes no random state. -/
theorem C5_signal_binary_total_deterministic (T : Transc) (ind : Expr)
    (rows : List (Nat → EFloat)) :
    (compile_individual T ind rows).length = rows.length ∧
    (∀ v ∈ compile_individual T ind rows, v = 0 ∨ v = 1) ∧
    compile_individual T ind rows = compile_individual T ind rows := by
  refine ⟨List.length_map _ _, ?_, rfl⟩
  intro v hv
  rcases List.mem_map.mp hv with ⟨row, -, hrow⟩
  by_cases h : pyGt (npSigmoid T.expQ (evalExpr T row ind)) (.fin (11 / 20)) = true
  · right; rw [← hrow]; simp [h]
  · left; rw [← hrow]; simp [h]

/-!
The evolutionary loop of `evolve` (strategy_ga.py lines 179-196).  The
individual type and Hall-of-Fame type are parameters; the DEAP operators
`toolbox.mate`/`toolbox.mutate` (cxOnePoint / mutUniform under the
`staticLimit` decorator), the training-split evaluator `eval_ind`, and the
`HallOfFame` operations are abstract components of a `GAEnv`.  Randomness:
`random.random()` draws come off an explicit stream of rationals — the
single seeded global generator (`random.seed(SEED)` at module level) made
explicit and threaded through every consumer. -/

/-- One `random.random()` draw: head of the stream, and the rest. -/
def rngNext (r : List ℚ) : ℚ × List ℚ := (r.headD 0, r.tail)

/-- The crossover pass of DEAP `algorithms.varAnd`: for each adjacent pair
`(offspring[i-1], offspring[i])`, `i = 1, 3, 5, ...`, draw once and mate the
pair when the draw is below `cxpb`. -/
def cxPass {ι : Type} (mateF : ι → ι → List ℚ → ι × ι × List ℚ) (cxpb : ℚ) :
    List ι → List ℚ → List ι × List ℚ
  | [], r => ([], r)
  | [a], r => ([a], r)
  | a :: b :: rest, r =>
      let (u, r1) := rngNext r
      if u < cxpb then
        let (a2, b2, r2) := mateF a b r1
        let (rest2, r3) := cxPass mateF cxpb rest r2
        (a2 :: b2 :: rest2, r3)
      else
        let (rest2, r2) := cxPass mateF cxpb rest r1
        (a :: b :: rest2, r2)

/-- The mutation pass of DEAP `algorithms.varAnd`: for each offspring, draw
once and mutate it when the draw is below `mutpb`. -/
def mutPass {ι : Type} (mutF : ι → List ℚ → ι × List ℚ) (mutpb : ℚ) :
    List ι → List ℚ → List ι × List ℚ
  | [], r => ([], r)
  | a :: rest, r =>
      let (u, r1) := rngNext r
      if u < mutpb then
        let (a2, r2) := mutF a r1
        let (rest2, r3) := mutPass mutF mutpb rest r2
        (a2 :: rest2, r3)
      else
        let (rest2, r2) := mutPass mutF mutpb rest r1
        (a :: rest2, r2)

/-- DEAP `algorithms.varAnd(population, toolbox, cxpb, mutpb)`: clone (value
semantics), crossover pass, then mutation pass.  Note it takes the whole
population; it performs no selection. -/
def varAnd {ι : Type} (mateF : ι → ι → List ℚ → ι × ι × List ℚ)
    (mutF : ι → List ℚ → ι × List ℚ) (cxpb mutpb : ℚ)
    (pop : List ι) (r : List ℚ) : List ι × List ℚ :=
  let (afterCx, r1) := cxPass mateF cxpb pop r
  mutPass mutF mutpb afterCx r1

/-- The abstract components an `evolve` run is wired with. -/
structure GAEnv (ι H : Type) where
  mate : ι → ι → List ℚ → ι × ι × List ℚ
  mutate : ι → List ℚ → ι × List ℚ
  evaluate : ι → Option ℚ
  hofUpdate : H → List (ι × ℚ) → H
  hofBest : H → ι
  valSignal : ι → List ℚ

/-- Model of `fits = list(map(toolbox.evaluate, pop))` with fitness assignment: the
eager map stops at the first evaluation that raises (`none`). -/
def evaluateAll {ι : Type} (ev : ι → Option ℚ) : List ι → Option (List (ι × ℚ))
  | [] => some []
  | i :: rest =>
      match ev i with
      | none => none
      | some f => (evaluateAll ev rest).map (fun t => (i, f) :: t)

/-- One generation of the loop body: `pop = algorithms.varAnd(pop, toolbox,
cxpb=0.5, mutpb=0.4)`, evaluate every offspring on the training split,
`hof.update(pop)`.  `none` models an exception escaping the generation. -/
def genOnce {ι H : Type} (env : GAEnv ι H) (s : List ι × H × List ℚ) :
    Option (List ι × H × List ℚ) :=
  let (off, r1) := varAnd env.mate env.mutate (1 / 2) (2 / 5) s.1 s.2.2
  match evaluateAll env.evaluate off with
  | none => none
  | some scored => some (off, env.hofUpdate s.2.1 scored, r1)

/-- The early-stop check: compile the best-ever individual, compute
`(1 + val_y * val_sig).cumprod().iloc[-1] - 1` on the VALIDATION split
only, and compare against the 0.80 target.  `none` models the `IndexError`
of `iloc[-1]` on an empty validation split. -/
def earlyStopO {ι H : Type} (env : GAEnv ι H) (valY : List ℚ) (h : H) :
    Option Bool :=
  (totalRet (env.valSignal (env.hofBest h)) valY).map (fun v => decide (4 / 5 ≤ v))

/-- Outcome classification of a failed run.  `entryValidation` stands for a
descriptive input-contract error raised at the entry point BEFORE the loop;
the source `evolve` contains no code path producing one.  `inGeneration g`
is an exception escaping generation `g` of the loop. -/
inductive RunErr : Type where
  | entryValidation : RunErr
  | inGeneration : Nat → RunErr
deriving DecidableEq, Repr

/-- Model of `for gen in range(fuel)` with the early-stop `break`: run a generation,
check the validation return of the best-ever individual, stop with the Hall
of Fame and the number of generations run. -/
def evolveLoop {ι H : Type} (env : GAEnv ι H) (valY : List ℚ) :
    Nat → List ι × H × List ℚ → Nat → Except RunErr (H × Nat)
  | 0, s, g => .ok (s.2.1, g)
  | fuel + 1, s, g =>
      match genOnce env s with
      | none => .error (.inGeneration g)
      | some s2 =>
          match earlyStopO env valY s2.2.1 with
          | none => .error (.inGeneration g)
          | some true => .ok (s2.2.1, g + 1)
          | some false => evolveLoop env valY fuel s2 (g + 1)

/-- The `evolve` entry point: it performs NO validation of its inputs — the
first thing that runs is the generation loop (budget 200, from the
source). -/
def evolve {ι H : Type} (env : GAEnv ι H) (valY : List ℚ) (initPop : List ι)
    (initHof : H) (rng : List ℚ) : Except RunErr (H × Nat) :=
  evolveLoop env valY 200 (initPop, initHof, rng) 0

/-- Runs `m` successive generations, as a reference iterator for stating
temporal properties of `evolveLoop`. -/
def iterGen {ι H : Type} (env : GAEnv ι H) :
    Nat → List ι × H × List ℚ → Option (List ι × H × List ℚ)
  | 0, s => some s
  | n + 1, s => (genOnce env s).bind (iterGen env n)

/-- The early-stop check reads only the validation-split components of the
environment (the compiled signal on the validation features, and the
best-of-hall accessor): any two environments agreeing on those agree on
every stopping decision. -/
theorem earlyStopO_reads_only_val {ι H : Type} (env env2 : GAEnv ι H)
    (valY : List ℚ) (h : H) (hv : env2.valSignal = env.valSignal)
    (hb : env2.hofBest = env.hofBest) :
    earlyStopO env2 valY h = earlyStopO env valY h := by
  unfold earlyStopO
  rw [hv, hb]

/-- Fact: `cxPass` preserves the population size. -/
theorem cxPass_length {ι : Type} (mateF : ι → ι → List ℚ → ι × ι × List ℚ)
    (cxpb : ℚ) : ∀ (pop : List ι) (r : List ℚ),
    (cxPass mateF cxpb pop r).1.length = pop.length
  | [], _ => rfl
  | [_], _ => rfl
  | a :: b :: rest, r => by
    by_cases hc : r.head?.getD 0 < cxpb
    · rcases hm : mateF a b r.tail with ⟨a2, b2, r2⟩
      rcases hr : cxPass mateF cxpb rest r2 with ⟨rest2, r3⟩
      have ih := cxPass_length mateF cxpb rest r2
      rw [hr] at ih
      simp [cxPass, rngNext, hc, hm, hr, ih]
    · rcases hr : cxPass mateF cxpb rest r.tail with ⟨rest2, r2⟩
      have ih := cxPass_length mateF cxpb rest r.tail
      rw [hr] at ih
      simp [cxPass, rngNext, hc, hr, ih]

/-- Fact: `mutPass` preserves the population size. -/
theorem mutPass_length {ι : Type} (mutF : ι → List ℚ → ι × List ℚ)
    (mutpb : ℚ) : ∀ (pop : List ι) (r : List ℚ),
    (mutPass mutF mutpb pop r).1.length = pop.length
  | [], _ => rfl
  | a :: rest, r => by
    by_cases hc : r.head?.getD 0 < mutpb
    · rcases hm : mutF a r.tail with ⟨a2, r2⟩
      rcases hr : mutPass mutF mutpb rest r2 with ⟨rest2, r3⟩
      have ih := mutPass_length mutF mutpb rest r2
      rw [hr] at ih
      simp [mutPass, rngNext, hc, hm, hr, ih]
    · rcases hr : mutPass mutF mutpb rest r.tail with ⟨rest2, r2⟩
      have ih := mutPass_length mutF mutpb rest r.tail
      rw [hr] at ih
      simp [mutPass, rngNext, hc, hr, ih]

/-- Fact: `varAnd` preserves the population size (clone + in-place variation). -/
theorem varAnd_length {ι : Type} (mateF : ι → ι → List ℚ → ι × ι × List ℚ)
    (mutF : ι → List ℚ → ι × List ℚ) (cxpb mutpb : ℚ)
    (pop : List ι) (r : List ℚ) :
    (varAnd mateF mutF cxpb mutpb pop r).1.length = pop.length := by
  unfold varAnd
  rcases h1 : cxPass mateF cxpb pop r with ⟨afterCx, r1⟩
  have hc := cxPass_length mateF cxpb pop r
  rw [h1] at hc
  have hm := mutPass_length mutF mutpb afterCx r1
  simp only [h1]
  rw [hm, hc]

/-- Evaluating a non-empty offspring list with an evaluator that always
raises produces the raised exception. -/
theorem evaluateAll_none {ι : Type} (ev : ι → Option ℚ)
    (hev : ∀ i, ev i = none) : ∀ l : List ι, l ≠ [] → evaluateAll ev l = none
  | [], h => absurd rfl h
  | i :: rest, _ => by simp [evaluateAll, hev i]

/-- C6 refuting theorem: the next population of the loop is `varAnd`
applied to the ENTIRE previous population, and it is invariant under any
change of the fitness evaluator and Hall-of-Fame machinery — i.e. no
fitness-based (tournament) selection of parents happens before crossover
and mutation. -/
theorem C6_variation_without_selection {ι H : Type}
    (mateF : ι → ι → List ℚ → ι × ι × List ℚ) (mutF : ι → List ℚ → ι × List ℚ)
    (ev1 ev2 : ι → Option ℚ) (up1 up2 : H → List (ι × ℚ) → H)
    (b1 b2 : H → ι) (v1 v2 : ι → List ℚ)
    (s s1 s2 : List ι × H × List ℚ)
    (h1 : genOnce ⟨mateF, mutF, ev1, up1, b1, v1⟩ s = some s1)
    (h2 : genOnce ⟨mateF, mutF, ev2, up2, b2, v2⟩ s = some s2) :
    s1.1 = s2.1 ∧ s1.1 = (varAnd mateF mutF (1 / 2) (2 / 5) s.1 s.2.2).1 := by
  simp only [genOnce] at h1 h2
  rcases hva : varAnd mateF mutF (1 / 2) (2 / 5) s.1 s.2.2 with ⟨off, r1⟩
  rw [hva] at h1 h2
  simp only at h1 h2
  cases hev1 : evaluateAll ev1 off with
  | none => rw [hev1] at h1; exact absurd h1 (by simp)
  | some sc1 =>
    cases hev2 : evaluateAll ev2 off with
    | none => rw [hev2] at h2; exact absurd h2 (by simp)
    | some sc2 =>
      rw [hev1] at h1
      rw [hev2] at h2
      have e1 : s1 = (off, up1 s.2.1 sc1, r1) := (Option.some.inj h1).symm
      have e2 : s2 = (off, up2 s.2.1 sc2, r1) := (Option.some.inj h2).symm
      rw [e1, e2]
      exact ⟨rfl, rfl⟩

/-- C7: a successful run of the generation loop stops at the FIRST
generation whose post-Hall-of-Fame-update validation check passes: the
returned generation count `n` exceeds the start index `g` by some `m ≤
fuel`; the returned Hall of Fame is the one after exactly `m` generations;
if the budget was not exhausted the final check passed; no strictly earlier
generation's check passed; and the check itself reads only the
validation-split components of the environment (never the training
evaluator). -/
theorem C7_early_stop_at_first_pass {ι H : Type} (env : GAEnv ι H)
    (valY : List ℚ) :
    ∀ (fuel : Nat) (s : List ι × H × List ℚ) (g : Nat) (h : H) (n : Nat),
      evolveLoop env valY fuel s g = .ok (h, n) →
      ∃ m, n = g + m ∧ m ≤ fuel ∧
        (∃ s2, iterGen env m s = some s2 ∧ h = s2.2.1) ∧
        (m < fuel → earlyStopO env valY h = some true) ∧
        (∀ k s3, k + 1 < m → iterGen env (k + 1) s = some s3 →
          earlyStopO env valY s3.2.1 = some false) ∧
        (∀ env2 : GAEnv ι H, env2.valSignal = env.valSignal →
          env2.hofBest = env.hofBest →
          earlyStopO env2 valY h = earlyStopO env valY h) := by
  intro fuel
  induction fuel with
  | zero =>
    intro s g h n hrun
    simp only [evolveLoop, Except.ok.injEq, Prod.mk.injEq] at hrun
    obtain ⟨hh, hn⟩ := hrun
    refine ⟨0, by omega, Nat.le_refl 0, ⟨s, rfl, hh.symm⟩, by omega, ?_, ?_⟩
    · intro k s3 hk
      omega
    · intro env2 hv hb
      exact earlyStopO_reads_only_val env env2 valY h hv hb
  | succ f ih =>
    intro s g h n hrun
    simp only [evolveLoop] at hrun
    split at hrun
    · exact absurd hrun (by simp)
    · rename_i s2 hgo
      split at hrun
      · exact absurd hrun (by simp)
      · -- early stop passed: return immediately with generation count g+1
        rename_i hes
        simp only [Except.ok.injEq, Prod.mk.injEq] at hrun
        obtain ⟨hh, hn⟩ := hrun
        refine ⟨1, by omega, by omega, ⟨s2, by simp [iterGen, hgo], hh.symm⟩,
          fun _ => by rw [← hh]; exact hes, ?_, ?_⟩
        · intro k s3 hk
          omega
        · intro env2 hv hb
          exact earlyStopO_reads_only_val env env2 valY h hv hb
      · -- check failed: the loop continues from s2
        rename_i hes
        obtain ⟨m, hn, hmf, ⟨s3, hit, hh⟩, hcheck, hprev, -⟩ :=
          ih s2 (g + 1) h n hrun
        refine ⟨m + 1, by omega, by omega, ⟨s3, by simp [iterGen, hgo, hit], hh⟩,
          fun hlt => hcheck (by omega), ?_, ?_⟩
        · intro k s4 hk hit4
          cases k with
          | zero =>
            have : s4 = s2 := by
              simp [iterGen, hgo] at hit4
              exact hit4.symm
            rw [this]
            exact hes
          | succ j =>
            have hit4' : iterGen env (j + 1) s2 = some s4 := by
              have : iterGen env (j + 1 + 1) s = (genOnce env s).bind
                  (iterGen env (j + 1)) := rfl
              rw [this, hgo] at hit4
              exact hit4
            exact hprev j s4 (by omega) hit4'
        · intro env2 hv hb
          exact earlyStopO_reads_only_val env env2 valY h hv hb

/-- C8 amended: `evolve` performs no input validation; when every fitness
evaluation raises (as with an empty training split, where
`equity.iloc[-1]` has nothing to index) and the population is non-empty,
the run dies with an exception DURING generation 0 — after crossover and
mutation have already been applied — not with a descriptive error at the
entry point. -/
theorem C8_no_entry_validation {ι H : Type} (env : GAEnv ι H) (valY : List ℚ)
    (initPop : List ι) (initHof : H) (rng : List ℚ)
    (hev : ∀ i, env.evaluate i = none) (hpop : initPop ≠ []) :
    evolve env valY initPop initHof rng = .error (.inGeneration 0) := by
  unfold evolve
  rw [show (200 : Nat) = 199 + 1 from rfl]
  have hoffne : (varAnd env.mate env.mutate (1 / 2) (2 / 5) initPop rng).1 ≠ [] := by
    intro hnil
    have hlen := varAnd_length env.mate env.mutate (1 / 2) (2 / 5) initPop rng
    rw [hnil] at hlen
    exact hpop (List.length_eq_zero.mp hlen.symm)
  have hgo : genOnce env (initPop, initHof, rng) = none := by
    simp only [genOnce]
    rcases hva : varAnd env.mate env.mutate (1 / 2) (2 / 5) initPop rng with ⟨off, r1⟩
    rw [hva] at hoffne
    simp only at hoffne
    rw [evaluateAll_none env.evaluate hev off hoffne]
  simp only [evolveLoop, hgo]

/-- C9: the run is a pure function of the environment (operators,
evaluator, Hall-of-Fame machinery), the validation data, the initial
population and the random stream — two runs fed the same seed stream and
identical inputs return bit-identical Hall-of-Fame contents and the
identical generation count. -/
theorem C9_fixed_seed_reproducible {ι H : Type} (env env2 : GAEnv ι H)
    (valY valY2 : List ℚ) (pop pop2 : List ι) (hof hof2 : H)
    (rng rng2 : List ℚ) (he : env = env2) (hv : valY = valY2)
    (hp : pop = pop2) (hh : hof = hof2) (hr : rng = rng2) :
    evolve env valY pop hof rng = evolve env2 valY2 pop2 hof2 rng2 := by
  rw [he, hv, hp, hh, hr]

/-- Identity stand-ins for the transcendental finite cases (any `ℚ → ℚ`
instantiates the theorems above). -/
def idTransc : Transc := ⟨id, id, id, id⟩

/-- A minimal concrete environment (individuals and Hall of Fame both
`Unit`): the compiled validation signal is `[1]`, so with `valY = [1]` the
validation return is `(1 + 1·1) - 1 = 1 ≥ 0.80` and the check passes in
the first generation. -/
def unitEnv : GAEnv Unit Unit where
  mate := fun a b r => (a, b, r)
  mutate := fun a r => (a, r)
  evaluate := fun _ => some 0
  hofUpdate := fun _ _ => ()
  hofBest := fun _ => ()
  valSignal := fun _ => [1]

/-- The environment of an `evolve` call whose training and validation
splits are EMPTY: `evaluate` is the source `eval_ind` (compile the
individual, run its signal on the empty training table, score against the
empty training targets); the variation operators are irrelevant pass-through
stand-ins — the failure happens inside evaluation. -/
def emptyTrainEnv : GAEnv Expr Unit where
  mate := fun a b r => (a, b, r)
  mutate := fun a r => (a, r)
  evaluate := fun ind => fitness_function (compile_individual idTransc ind []) []
  hofUpdate := fun _ _ => ()
  hofBest := fun _ => Expr.const 0
  valSignal := fun ind => compile_individual idTransc ind []

/-- Witness for C6 at a concrete population `[5, 7]` and two environments
differing in evaluator and Hall-of-Fame machinery. -/
theorem C6_variation_without_selection_witness :
    ([5, 7] : List Nat) = [5, 7] ∧
    ([5, 7] : List Nat) =
      (varAnd (fun (a b : Nat) (r : List ℚ) => (a, b, r))
        (fun (a : Nat) (r : List ℚ) => (a, r)) (1 / 2) (2 / 5) [5, 7] []).1 := by
  have h := C6_variation_without_selection (ι := Nat) (H := Unit)
    (fun a b r => (a, b, r)) (fun a r => (a, r))
    (fun _ => some 0) (fun n => some ((n : ℚ) + 1))
    (fun _ _ => ()) (fun _ _ => ()) (fun _ => 0) (fun _ => 1)
    (fun _ => []) (fun _ => [1])
    ([5, 7], (), []) ([5, 7], (), []) ([5, 7], (), [])
    (by norm_num [genOnce, varAnd, cxPass, mutPass, rngNext, evaluateAll])
    (by norm_num [genOnce, varAnd, cxPass, mutPass, rngNext, evaluateAll])
  simpa using h

/-- Witness for C7: with `unitEnv`, a budget of 2 and one individual, the
check passes after generation 1 and the loop returns generation count 1. -/
theorem C7_early_stop_at_first_pass_witness :
    ∃ m, 1 = 0 + m ∧ m ≤ 2 ∧
      (∃ s2, iterGen unitEnv m ([()], (), []) = some s2 ∧ () = s2.2.1) ∧
      (m < 2 → earlyStopO unitEnv [1] () = some true) ∧
      (∀ k s3, k + 1 < m → iterGen unitEnv (k + 1) ([()], (), []) = some s3 →
        earlyStopO unitEnv [1] s3.2.1 = some false) ∧
      (∀ env2 : GAEnv Unit Unit, env2.valSignal = unitEnv.valSignal →
        env2.hofBest = unitEnv.hofBest →
        earlyStopO env2 [1] () = earlyStopO unitEnv [1] ()) :=
  C7_early_stop_at_first_pass unitEnv [1] 2 ([()], (), []) 0 () 1
    (by norm_num [evolveLoop, genOnce, varAnd, cxPass, mutPass, rngNext,
      evaluateAll, earlyStopO, unitEnv, totalRet, equity_curve, stratReturns,
      cumprod, cumprodAux])

/-- C8 fails as stated: with an EMPTY training split (a caller-contract
violation) the run does not raise a descriptive error at the entry point —
it dies of the modelled `IndexError` inside generation 0, after the
variation operators have already been applied to the initial population. -/
theorem C8_counterexample :
    evolve emptyTrainEnv [] [Expr.const 0] () [] = .error (.inGeneration 0) ∧
    evolve emptyTrainEnv [] [Expr.const 0] () [] ≠ .error .entryValidation := by
  have h : evolve emptyTrainEnv [] [Expr.const 0] () [] =
      .error (.inGeneration 0) := by
    unfold evolve
    rw [show (200 : Nat) = 199 + 1 from rfl]
    have hgo : genOnce emptyTrainEnv ([Expr.const 0], (), []) = none := by
      norm_num [genOnce, varAnd, cxPass, mutPass, rngNext, evaluateAll,
        emptyTrainEnv, fitness_function, compile_individual, equity_curve,
        stratReturns, cumprod, cumprodAux]
    simp only [evolveLoop, hgo]
  exact ⟨h, by simp [h]⟩

/-- Witness for C8 amended at a two-individual population over the
empty-training-split environment. -/
theorem C8_no_entry_validation_witness :
    evolve emptyTrainEnv [] [Expr.const 1, Expr.const 2] () [] =
      .error (.inGeneration 0) :=
  C8_no_entry_validation emptyTrainEnv [] [Expr.const 1, Expr.const 2] () []
    (fun _ => rfl) (by simp)

/-- Witness for C9: two runs of `evolve` with the identical environment,
validation data, initial population and seed stream coincide. -/
theorem C9_fixed_seed_reproducible_witness :
    evolve unitEnv [1] [()] () [] = evolve unitEnv [1] [()] () [] :=
  C9_fixed_seed_reproducible unitEnv unitEnv [1] [1] [()] [()] () () [] []
    rfl rfl rfl rfl rfl

end StrategyGA
